import Mathlib

/-!
Shallow embedding of `src/enum_strings.h` (klevzoff/EnumStrings).

A registered enumeration type `E` is represented by its label table
`strings : List String` (the array `ss` built by the `ENUM_STRINGS` macro:
one label per enumeration value, position `i` holding the label of the
value with underlying numeric position `i`).  A value of `E` is represented
by its underlying numeric representation, an `Int` (the underlying type is
a signed integer type in all the repository's uses, so negative
representations exist and matter for the range guard in `to_string`).
-/

namespace enum_strings

/-- Result of running one of the C++ conversion functions: a normal return,
a thrown `std::invalid_argument` carrying its message string, or undefined
behavior (an out-of-bounds read of the label array). -/
inductive CppResult (α : Type) where
  | ok : α → CppResult α
  | err : String → CppResult α
  | ub : CppResult α
deriving DecidableEq, Repr

/-- Sequencing of two C++ computations: an exception or undefined behavior
in the first propagates. -/
def CppResult.bind {α β : Type} : CppResult α → (α → CppResult β) → CppResult β
  | .ok a, f => f a
  | .err m, _ => .err m
  | .ub, _ => .ub

/-- `num_values<E>()`: the size `N` of the static array
`char const * ss[] { ... }` registered for `E`. -/
def num_values (strings : List String) : Nat := strings.length

/-- The `size_t` subtraction `num_values<E>() - 1` appearing in the error
message of `to_string` (`std::size_t` arithmetic is modulo `2 ^ 64`; the
registered array is never empty, a zero-length array being ill-formed, so
in any registered table this is ordinary subtraction). -/
def size_sub_one (n : Nat) : Nat := (n + (2 ^ 64 - 1)) % 2 ^ 64

/-- `enum_strings::to_string<E>(e)`, src/enum_strings.h lines 108-120:

  if the underlying value `index` satisfies
  `index >= static_cast<base_type>(num_values<E>())` (a signed comparison),
  throw `std::invalid_argument` with message
  `"Invalid value " + std::to_string(index) + ". Valid range is 0.." +
   std::to_string(num_values<E>() - 1)`;
  otherwise return `strings[index]` — an unguarded array access, which for
  a negative `index` reads out of bounds (undefined behavior). -/
def to_string (strings : List String) (e : Int) : CppResult String :=
  if (num_values strings : Int) ≤ e then
    .err ("Invalid value " ++ toString e ++ ". Valid range is 0.."
      ++ toString (size_sub_one (num_values strings)))
  else if 0 ≤ e then
    .ok (strings.getD e.toNat "")
  else
    .ub

/-- The scan loop of `from_string`:
`for (n = 0; n < num_values<E>() && strings[n] != s; ++n);`
returns the first index whose label equals `s`, or the table length when
no label matches. -/
def from_string_loop (strings : List String) (s : String) : Nat :=
  match strings with
  | [] => 0
  | t :: rest => if t = s then 0 else from_string_loop rest s + 1

/-- `enum_strings::from_string<E>(s)`, src/enum_strings.h lines 129-141:
linear scan for the first exact match; if the scan falls off the end,
throw `std::invalid_argument` naming `s`; otherwise return
`static_cast<E>(n)` (the value whose underlying representation is `n`). -/
def from_string (strings : List String) (s : String) : CppResult Int :=
  if from_string_loop strings s = num_values strings then
    .err ("\x27" ++ s ++ "\x27 is not a valid string representation of this type")
  else
    .ok (from_string_loop strings s : Int)

/-- `enum_strings::get_strings<E>()`, src/enum_strings.h lines 148-152:
builds a `std::vector<std::string>` by value from
`{ strings[0], strings[1], ..., strings[N-1] }` (the `index_sequence`
expansion in `detail::get_strings`). -/
def get_strings (strings : List String) : List String :=
  (List.range (num_values strings)).map (fun i => strings.getD i "")

/-- `enum_strings::detail::check_num_values<E>(0)`, src/enum_strings.h
lines 154-167: when `E` declares a constant `E::END` (modelled by
`sentinel = some endPos` where `endPos` is `END`'s numeric position), the
first overload is selected and returns
`num_values<E>() == static_cast<std::size_t>(END)`; otherwise the variadic
fallback is selected and returns `true` unconditionally. -/
def check_num_values (strings : List String) (sentinel : Option Nat) : Bool :=
  match sentinel with
  | some endPos => num_values strings == endPos
  | none => true

/-- The whitespace set of `std::istream >> std::string` in the default
locale: space, tab, newline, vertical tab, form feed, carriage return. -/
def is_space (c : Char) : Bool :=
  c = ' ' || c = '\t' || c = '\n' || c = '\x0b' || c = '\x0c' || c = '\r'

/-- The token that `std::string s; is >> s;` extracts from a stream whose
remaining contents are `is`: skip leading whitespace, then take the
maximal whitespace-free run (empty when the stream has nothing left,
in which case extraction fails and `s` is left empty). -/
def extract_token (is : List Char) : List Char :=
  ((is.dropWhile is_space).takeWhile (fun c => !(is_space c)))

/-- What remains of a stream with contents `is` after `is >> s`: the
leading whitespace and the extracted token have been consumed, so the
stream is positioned directly after the token. -/
def stream_rest (is : List Char) : List Char :=
  (is.dropWhile is_space).drop (extract_token is).length

/-- The generated `operator<<` (src/enum_strings.h lines 39-45):
`os << ::enum_strings::to_string(e)` — on success the label's characters
are appended to the output stream; an exception thrown by `to_string`
propagates before anything is written. -/
def op_out (strings : List String) (e : Int) (os : List Char) : CppResult (List Char) :=
  match to_string strings e with
  | .ok s => .ok (os ++ s.toList)
  | .err m => .err m
  | .ub => .ub

/-- Outcome of the generated `operator>>`: the remaining stream contents,
the value of the out-parameter `e` after the call (its previous value when
an exception was thrown), and the thrown message, if any. -/
structure ReadResult where
  stream : List Char
  e : Int
  threw : Option String
deriving DecidableEq, Repr

/-- The generated `operator>>` (src/enum_strings.h lines 46-52):
`std::string s; is >> s; e = ::enum_strings::from_string<E>(s);`
The token is consumed from the stream first; `e` is assigned only when
`from_string` returns normally, an exception leaving `e` untouched.
(`from_string` never reaches the undefined-behavior case; that branch of
the match is vacuous.) -/
def op_in (strings : List String) (is : List Char) (e0 : Int) : ReadResult :=
  match from_string strings (String.mk (extract_token is)) with
  | .ok n => { stream := stream_rest is, e := n, threw := none }
  | .err m => { stream := stream_rest is, e := e0, threw := some m }
  | .ub => { stream := stream_rest is, e := e0, threw := none }

/-- Whether a C++ computation returned normally. -/
def CppResult.is_ok {α : Type} : CppResult α → Bool
  | .ok _ => true
  | _ => false

/-- Whether a C++ computation threw `std::invalid_argument`. -/
def CppResult.is_err {α : Type} : CppResult α → Bool
  | .err _ => true
  | _ => false

example : to_string ["wa", "wb"] 1 = .ok "wb" := by decide
example : to_string ["wa", "wb"] 2 =
    .err "Invalid value 2. Valid range is 0..1" := by decide
example : to_string ["wa", "wb"] (-1) = .ub := by decide
example : from_string ["wa", "wb"] "wb" = .ok 1 := by decide
example : from_string ["wa", "wb"] "zz" =
    .err "\x27zz\x27 is not a valid string representation of this type" := by decide
example : get_strings ["wa", "wb"] = ["wa", "wb"] := by decide
example : op_out ["wa", "wb"] 0 [] = .ok "wa".toList := by decide
example : op_in ["wa", "wb"] "wb".toList 5 = ⟨[], 1, none⟩ := by decide

theorem from_string_loop_le_length (strings : List String) (s : String) :
    from_string_loop strings s ≤ strings.length := by
  induction strings with
  | nil => simp [from_string_loop]
  | cons t rest ih =>
    rw [from_string_loop]
    by_cases h : t = s
    · simp [h]
    · rw [if_neg h, List.length_cons]
      omega

theorem from_string_loop_lt_length (strings : List String) (s : String)
    (hs : s ∈ strings) : from_string_loop strings s < strings.length := by
  induction strings with
  | nil => cases hs
  | cons t rest ih =>
    rw [from_string_loop]
    by_cases h : t = s
    · simp [h]
    · rw [if_neg h, List.length_cons]
      have hs' : s ∈ rest := by
        cases hs with
        | head => exact absurd rfl h
        | tail _ hmem => exact hmem
      have := ih hs'
      omega

theorem from_string_loop_eq_length (strings : List String) (s : String)
    (hs : s ∉ strings) : from_string_loop strings s = strings.length := by
  induction strings with
  | nil => rfl
  | cons t rest ih =>
    rw [from_string_loop]
    have ht : t ≠ s := fun h => hs (h ▸ List.mem_cons_self t rest)
    rw [if_neg ht, List.length_cons]
    have hs' : s ∉ rest := fun h => hs (List.mem_cons_of_mem t h)
    rw [ih hs']

theorem get?_from_string_loop (strings : List String) (s : String)
    (hs : s ∈ strings) : strings.get? (from_string_loop strings s) = some s := by
  induction strings with
  | nil => cases hs
  | cons t rest ih =>
    rw [from_string_loop]
    by_cases h : t = s
    · simp [h]
    · rw [if_neg h, List.get?_cons_succ]
      have hs' : s ∈ rest := by
        cases hs with
        | head => exact absurd rfl h
        | tail _ hmem => exact hmem
      exact ih hs'

theorem from_string_loop_min (strings : List String) (s : String) (m : Nat)
    (hm : m < from_string_loop strings s) : strings.get? m ≠ some s := by
  induction strings generalizing m with
  | nil => simp [from_string_loop] at hm
  | cons t rest ih =>
    rw [from_string_loop] at hm
    by_cases h : t = s
    · rw [if_pos h] at hm
      omega
    · rw [if_neg h] at hm
      cases m with
      | zero =>
        rw [List.get?_cons_zero]
        intro hc
        exact h (Option.some.inj hc)
      | succ m =>
        rw [List.get?_cons_succ]
        exact ih m (by omega)

theorem from_string_loop_of_get? (strings : List String) (i : Nat) (s : String)
    (hnd : strings.Nodup) (hi : strings.get? i = some s) :
    from_string_loop strings s = i := by
  have hmem : s ∈ strings := List.get?_mem hi
  have h1 : strings.get? (from_string_loop strings s) = some s :=
    get?_from_string_loop strings s hmem
  have h2 : ¬ i < from_string_loop strings s :=
    fun h => from_string_loop_min strings s i h hi
  have hlt : from_string_loop strings s < strings.length :=
    from_string_loop_lt_length strings s hmem
  exact List.get?_inj hlt hnd (h1.trans hi.symm)

theorem from_string_ne_ub (strings : List String) (s : String) :
    from_string strings s ≠ CppResult.ub := by
  rw [from_string]
  by_cases h : from_string_loop strings s = num_values strings
  · simp [h]
  · simp [h]

theorem getD_of_get? (l : List String) (n : Nat) (s : String)
    (h : l.get? n = some s) : l.getD n "" = s := by
  rw [List.getD_eq_getD_get?, h]
  rfl

theorem dropWhile_eq_self_of_all {p : Char → Bool} {l : List Char}
    (h : ∀ c ∈ l, p c = false) : l.dropWhile p = l := by
  cases l with
  | nil => rfl
  | cons a l =>
    rw [List.dropWhile_cons, h a (List.mem_cons_self a l)]
    simp

theorem takeWhile_eq_self_of_all {p : Char → Bool} {l : List Char}
    (h : ∀ c ∈ l, p c = true) : l.takeWhile p = l := by
  induction l with
  | nil => rfl
  | cons a l ih =>
    rw [List.takeWhile_cons, h a (List.mem_cons_self a l)]
    simp only [ite_true]
    rw [ih (fun c hc => h c (List.mem_cons_of_mem a hc))]

theorem size_sub_one_eq (n : Nat) (h1 : 0 < n) (h2 : n < 2 ^ 64) :
    size_sub_one n = n - 1 := by
  rw [size_sub_one]
  omega

/-- C3: for every string `s` that occurs in the label table, `from_string`
returns normally with the enumeration value whose position is the smallest
index whose label equals `s` (the linear scan stops at the first exact,
case-sensitive match, so the first match wins when labels are
duplicated). -/
theorem c3_from_string_first_match (strings : List String) (s : String)
    (hs : s ∈ strings) :
    from_string strings s = CppResult.ok (from_string_loop strings s : Int) ∧
    strings.get? (from_string_loop strings s) = some s ∧
    ∀ m, m < from_string_loop strings s → strings.get? m ≠ some s := by
  have hlt := from_string_loop_lt_length strings s hs
  refine ⟨?_, get?_from_string_loop strings s hs,
    fun m hm => from_string_loop_min strings s m hm⟩
  rw [from_string, if_neg (by rw [num_values]; omega)]

theorem c3_witness : from_string ["wa", "wb"] "wb" = CppResult.ok 1 :=
  (c3_from_string_first_match ["wa", "wb"] "wb" (by decide)).1

/-- C4: for every string `s` matching no label exactly, `from_string`
throws `std::invalid_argument` with a message containing the unmatched
string `s` (the message is the concatenation of a quote, `s`, and a fixed
suffix); when some label matches, no error is raised. -/
theorem c4_from_string_invalid (strings : List String) (s : String) :
    (s ∉ strings → from_string strings s = CppResult.err
      ("\x27" ++ s ++ "\x27 is not a valid string representation of this type")) ∧
    (s ∈ strings → (from_string strings s).is_err = false) := by
  constructor
  · intro hs
    rw [from_string,
      if_pos (by rw [num_values]; exact from_string_loop_eq_length strings s hs)]
  · intro hs
    have hlt := from_string_loop_lt_length strings s hs
    rw [from_string, if_neg (by rw [num_values]; omega)]
    rfl

theorem c4_witness :
    from_string ["wa", "wb"] "zz" = CppResult.err
      ("\x27" ++ "zz" ++ "\x27 is not a valid string representation of this type") ∧
    (from_string ["wa", "wb"] "wa").is_err = false :=
  ⟨(c4_from_string_invalid ["wa", "wb"] "zz").1 (by decide),
   (c4_from_string_invalid ["wa", "wb"] "wa").2 (by decide)⟩

/-- C5: for every label `s` in the table, `to_string (from_string s) = s`,
with no distinctness assumption: with duplicated labels `from_string`
returns the first matching position, whose stored label is still `s`. -/
theorem c5_inverse_round_trip (strings : List String) (s : String)
    (hs : s ∈ strings) :
    (from_string strings s).bind (to_string strings) = CppResult.ok s := by
  have hlt := from_string_loop_lt_length strings s hs
  have hget := get?_from_string_loop strings s hs
  rw [from_string, if_neg (by rw [num_values]; omega), CppResult.bind]
  rw [to_string, if_neg (by rw [num_values]; omega),
    if_pos (by omega)]
  rw [Int.toNat_natCast, getD_of_get? strings _ s hget]

theorem c5_witness :
    (from_string ["wa", "wb"] "wb").bind (to_string ["wa", "wb"]) =
      CppResult.ok "wb" :=
  c5_inverse_round_trip ["wa", "wb"] "wb" (by decide)

/-- C6: `get_strings` returns the full label table in registration order
and its length equals `num_values` (the returned `std::vector` is built by
value from the elements of the internal static array, so it is an owned
copy by construction; value semantics of the embedding reflect that the
internal table cannot be affected through the returned sequence). -/
theorem c6_get_strings (strings : List String) :
    get_strings strings = strings ∧
    (get_strings strings).length = num_values strings := by
  have h : get_strings strings = strings := by
    rw [get_strings, num_values]
    apply List.ext_get
    · simp
    · intro n h1 h2
      simp only [List.get_map, List.get_range]
      exact getD_of_get? strings n _ (List.get?_eq_get h2)
  exact ⟨h, by rw [h, num_values]⟩

/-- C7: when the enumeration declares a trailing sentinel `END` (modelled
by `some endPos`, `endPos` being `END`'s numeric position), the selected
overload of `detail::check_num_values` returns `true` exactly when the
number of supplied labels equals `endPos`; without a sentinel the variadic
fallback returns `true` unconditionally, so no arity check is performed.
The result feeds a `static_assert`, making a mismatch a compilation
failure rather than a runtime error. -/
theorem c7_check_num_values (strings : List String) (endPos : Nat) :
    (check_num_values strings (some endPos) = true ↔
      num_values strings = endPos) ∧
    check_num_values strings none = true := by
  constructor
  · rw [check_num_values]
    exact beq_iff_eq
  · rfl

/-- C9: the range guard of `to_string` compares the signed underlying
value only against `num_values`, so a negative underlying value does not
take the error branch and the subsequent array access
`strings[index]` reads out of bounds — undefined behavior, modelled by
`CppResult.ub`. -/
theorem c9_negative_unguarded (strings : List String) (e : Int) (h : e < 0) :
    to_string strings e = CppResult.ub ∧
    (to_string strings e).is_err = false := by
  have hub : to_string strings e = CppResult.ub := by
    rw [to_string, if_neg (show ¬ ((num_values strings : Int) ≤ e) by omega),
      if_neg (show ¬ (0 ≤ e) by omega)]
  exact ⟨hub, by rw [hub]; rfl⟩

theorem c9_witness :
    to_string ["wa", "wb"] (-1) = CppResult.ub ∧
    (to_string ["wa", "wb"] (-1)).is_err = false :=
  c9_negative_unguarded ["wa", "wb"] (-1) (by decide)

/-- C1: for a correctly registered table — one label per value in
declaration order, labels pairwise distinct (the spec calls duplicated
labels a caller error) — and every valid value `v`
(`0 ≤ v < num_values`), `from_string (to_string v) = v`. -/
theorem c1_round_trip (strings : List String) (v : Int)
    (hnd : strings.Nodup) (h0 : 0 ≤ v)
    (hv : v < (num_values strings : Int)) :
    (to_string strings v).bind (from_string strings) = CppResult.ok v := by
  have hvlt : v.toNat < strings.length := by
    rw [num_values] at hv
    omega
  rw [to_string, if_neg (by omega), if_pos h0, CppResult.bind]
  have hget : strings.get? v.toNat = some (strings.get ⟨v.toNat, hvlt⟩) :=
    List.get?_eq_get hvlt
  rw [getD_of_get? strings v.toNat _ hget]
  rw [from_string, from_string_loop_of_get? strings v.toNat _ hnd hget]
  rw [if_neg (by rw [num_values]; omega)]
  rw [Int.toNat_of_nonneg h0]

theorem c1_witness :
    (to_string ["wa", "wb"] 1).bind (from_string ["wa", "wb"]) =
      CppResult.ok 1 :=
  c1_round_trip ["wa", "wb"] 1 (by decide) (by decide) (by decide)

/-- C2 (counterexample): at the registered table `["x"]` and the value
with underlying representation `-1` — whose numeric position is smaller
than `count = 1`, so the claim asserts the label stored at that position
is returned — `to_string` returns no label and raises no error: the guard
is passed and the array access is out of bounds. -/
theorem c2_counterexample :
    (to_string ["x"] (-1)).is_ok = false ∧
    (to_string ["x"] (-1)).is_err = false ∧
    to_string ["x"] (-1) = CppResult.ub := by decide

/-- C2 (amended): for every value whose underlying representation is
nonnegative, `to_string` throws the out-of-range error exactly when the
position is `≥ num_values` — the message naming the offending value and
the inclusive range `0..num_values - 1` — and otherwise returns the label
stored at that position.  (The table is never empty and its size fits in
`size_t`, so the `num_values - 1` in the message does not wrap.) -/
theorem c2_to_string_range_check (strings : List String) (e : Int)
    (h0 : 0 ≤ e) (hne : strings ≠ []) (hsz : strings.length < 2 ^ 64) :
    ((num_values strings : Int) ≤ e →
      to_string strings e = CppResult.err
        ("Invalid value " ++ toString e ++ ". Valid range is 0.."
          ++ toString (num_values strings - 1))) ∧
    (e < (num_values strings : Int) →
      to_string strings e = CppResult.ok (strings.getD e.toNat "")) ∧
    ((to_string strings e).is_err = true ↔ (num_values strings : Int) ≤ e) := by
  have hpos : 0 < strings.length := List.length_pos.mpr hne
  have hmsg : size_sub_one (num_values strings) = num_values strings - 1 := by
    rw [num_values]
    exact size_sub_one_eq strings.length hpos hsz
  refine ⟨?_, ?_, ?_⟩
  · intro hle
    rw [to_string, if_pos hle, hmsg]
  · intro hlt
    rw [to_string, if_neg (by omega), if_pos h0]
  · by_cases hle : (num_values strings : Int) ≤ e
    · rw [to_string, if_pos hle]
      simp [CppResult.is_err, hle]
    · rw [to_string, if_neg hle, if_pos h0]
      simp [CppResult.is_err, hle]

theorem c2_witness :
    to_string ["wa", "wb"] 5 = CppResult.err
      ("Invalid value " ++ toString (5 : Int) ++ ". Valid range is 0.."
        ++ toString (num_values ["wa", "wb"] - 1)) ∧
    to_string ["wa", "wb"] 1 = CppResult.ok (["wa", "wb"].getD (1 : Int).toNat "") :=
  ⟨(c2_to_string_range_check ["wa", "wb"] 5 (by decide) (by decide) (by decide)).1
      (by decide),
   (c2_to_string_range_check ["wa", "wb"] 1 (by decide) (by decide) (by decide)).2.1
      (by decide)⟩

/-- C10: the generated `operator>>` is atomic in its out-parameter: the
token is consumed from the stream first, and when `from_string` throws on
it the exception propagates with `e` still holding its previous value;
`e` is assigned exactly when the conversion returns normally. -/
theorem c10_op_in_atomic (strings : List String) (is : List Char) (e0 : Int) :
    ((from_string strings (String.mk (extract_token is))).is_err = true →
      (op_in strings is e0).e = e0 ∧
      (op_in strings is e0).threw.isSome = true) ∧
    ((op_in strings is e0).threw = none →
      from_string strings (String.mk (extract_token is)) =
        CppResult.ok ((op_in strings is e0).e)) := by
  unfold op_in
  cases hfs : from_string strings (String.mk (extract_token is)) with
  | ok n =>
    refine ⟨fun h => ?_, fun _ => rfl⟩
    simp [CppResult.is_err] at h
  | err m =>
    exact ⟨fun _ => ⟨rfl, rfl⟩, fun h => nomatch h⟩
  | ub => exact absurd hfs (from_string_ne_ub strings _)

theorem c10_witness :
    ((op_in ["wa"] "zz".toList 7).e = 7 ∧
      (op_in ["wa"] "zz".toList 7).threw.isSome = true) ∧
    from_string ["wa"] (String.mk (extract_token "wa".toList)) =
      CppResult.ok ((op_in ["wa"] "wa".toList 7).e) :=
  ⟨(c10_op_in_atomic ["wa"] "zz".toList 7).1 (by decide),
   (c10_op_in_atomic ["wa"] "wa".toList 7).2 (by decide)⟩

/-- C8 (counterexample): the label table `["a b"]` is registered, the
value with position `0` is valid, and writing it to a fresh stream stores
`"a b"`; but reading one whitespace-delimited token back extracts only
`"a"`, which matches no label, so `operator>>` throws and the fresh value
(here previously `7`) is not assigned — the stream round trip does not
yield the written value. -/
theorem c8_counterexample :
    to_string ["a b"] 0 = CppResult.ok "a b" ∧
    op_out ["a b"] 0 [] = CppResult.ok "a b".toList ∧
    (op_in ["a b"] "a b".toList 7).e = 7 ∧
    (op_in ["a b"] "a b".toList 7).threw =
      some ("\x27a\x27 is not a valid string representation of this type") := by
  decide

/-- C8 (amended): writing a valid value `v` to a fresh stream and reading
one whitespace-delimited token back yields `v`, with the stream positioned
after the consumed token, provided `v`'s label is nonempty, contains no
whitespace, and `v` is the smallest position bearing that label.  (For an
empty label the C++ extraction additionally puts the stream in a failed
state, outside this model, hence the nonemptiness hypothesis.) -/
theorem c8_stream_round_trip (strings : List String) (v : Nat) (lab : String)
    (e0 : Int) (hget : strings.get? v = some lab)
    (hfirst : from_string_loop strings lab = v) (hlab : lab ≠ "")
    (hws : ∀ c ∈ lab.toList, is_space c = false) :
    op_out strings (v : Int) [] = CppResult.ok lab.toList ∧
    op_in strings lab.toList e0 =
      { stream := [], e := (v : Int), threw := none } := by
  have hvlt : v < strings.length := by
    obtain ⟨h, -⟩ := List.get?_eq_some.mp hget
    exact h
  have hts : to_string strings (v : Int) = CppResult.ok lab := by
    rw [to_string, if_neg (by rw [num_values]; omega),
      if_pos (by omega), Int.toNat_natCast, getD_of_get? strings v lab hget]
  have hdrop : lab.toList.dropWhile is_space = lab.toList :=
    dropWhile_eq_self_of_all hws
  have htake : lab.toList.takeWhile (fun c => !(is_space c)) = lab.toList :=
    takeWhile_eq_self_of_all (fun c hc => by rw [hws c hc]; rfl)
  have htok : extract_token lab.toList = lab.toList := by
    rw [extract_token, hdrop, htake]
  have hrest : stream_rest lab.toList = [] := by
    rw [stream_rest, htok, hdrop, List.drop_length]
  have hmk : String.mk lab.toList = lab := by
    cases lab
    rfl
  have hfs : from_string strings (String.mk (extract_token lab.toList)) =
      CppResult.ok (v : Int) := by
    rw [htok, hmk, from_string, hfirst,
      if_neg (by rw [num_values]; omega)]
  constructor
  · unfold op_out
    rw [hts]
    rfl
  · unfold op_in
    rw [hfs, hrest]

theorem c8_witness :
    op_out ["wa", "wb"] (1 : Int) [] = CppResult.ok "wb".toList ∧
    op_in ["wa", "wb"] "wb".toList 5 =
      { stream := [], e := (1 : Int), threw := none } :=
  c8_stream_round_trip ["wa", "wb"] 1 "wb" 5 (by decide) (by decide)
    (by decide) (by decide)

end enum_strings
